import Mathlib

/-!
Verification development for the scgenome excerpt (TNode.py, cncluster.py,
simulation.py).  The Python code is shallowly embedded: mutable updates become
functions returning new values, Python runtime failures (AttributeError on a
None dereference, TypeError on arithmetic with None, ValueError, IndexError,
ZeroDivisionError, KeyError) become an explicit error type, and floating point
numbers are modelled by an exact linear ordered field (instantiated at `ℚ` for
executable checks and at `ℝ` where analytic facts about `log`/`exp`/`Γ` are
needed).  External library primitives that the excerpt calls but does not
define (`math.gamma`, `np.log`, `np.exp`, `scipy.special.logsumexp`'s
underlying log/exp, `scipy.spatial.distance.pdist`'s row metric,
`scgenome.jointcnmodels.calculate_marginal_ll_simple`, and
`scgenome.jointcnmodels.get_variances`) are threaded through as explicit
function parameters.
-/

namespace Scgenome

/-- Python runtime error kinds observable from the embedded code.
`invalidState` models the error class the specification demands for the
NO_CHILDREN condition (the constant exists in `scgenome.constants`, outside
the excerpt); the live code never raises it. -/
inductive PyErr : Type where
  | attributeError
  | typeError
  | valueError
  | zeroDivisionError
  | indexError
  | keyError
  | invalidState
deriving DecidableEq, Repr

/-- The transition model descriptor built in `cncluster.bayesian_cluster`:
`{"kind": "twoparam", "e0": prob_cn_change, "e1": 1 - prob_cn_change}`. -/
structure TransModel (R : Type) where
  kind : String
  e0 : R
  e1 : R
deriving Repr

/-- `scgenome.TNode.TNode`: the cluster-tree node.  Children are `Option`
(Python `None`), and the five statistics default to `None` until an update
routine writes them, exactly as in `TNode.__init__`. -/
inductive TNode (R : Type) : Type where
  | mk (sample_inds : List ℕ) (left_child right_child : Option (TNode R))
      (cluster_ind : ℤ) (pi d ll tree_ll log_r : Option R)

namespace TNode

variable {R : Type}

def sample_inds : TNode R → List ℕ
  | mk s _ _ _ _ _ _ _ _ => s

def left_child : TNode R → Option (TNode R)
  | mk _ l _ _ _ _ _ _ _ => l

def right_child : TNode R → Option (TNode R)
  | mk _ _ r _ _ _ _ _ _ => r

def cluster_ind : TNode R → ℤ
  | mk _ _ _ c _ _ _ _ _ => c

def pi : TNode R → Option R
  | mk _ _ _ _ p _ _ _ _ => p

def d : TNode R → Option R
  | mk _ _ _ _ _ v _ _ _ => v

def ll : TNode R → Option R
  | mk _ _ _ _ _ _ v _ _ => v

def tree_ll : TNode R → Option R
  | mk _ _ _ _ _ _ _ v _ => v

def log_r : TNode R → Option R
  | mk _ _ _ _ _ _ _ _ v => v

/-- Write `pi` and `d`, leaving every other field unchanged. -/
def withPiD (t : TNode R) (p v : R) : TNode R :=
  match t with
  | mk s l r c _ _ w x y => mk s l r c (some p) (some v) w x y

/-- Write `ll`, leaving every other field unchanged. -/
def withLl (t : TNode R) (v : R) : TNode R :=
  match t with
  | mk s l r c p w _ x y => mk s l r c p w (some v) x y

/-- Write `tree_ll`, leaving every other field unchanged. -/
def withTreeLl (t : TNode R) (v : R) : TNode R :=
  match t with
  | mk s l r c p w x _ y => mk s l r c p w x (some v) y

/-- Write `log_r`, leaving every other field unchanged. -/
def withLogR (t : TNode R) (v : R) : TNode R :=
  match t with
  | mk s l r c p w x y _ => mk s l r c p w x y (some v)

/-- Write `cluster_ind`, leaving every other field unchanged. -/
def withClusterInd (t : TNode R) (c : ℤ) : TNode R :=
  match t with
  | mk s l r _ p w x y z => mk s l r c p w x y z

/-- `TNode.is_leaf`: both children absent and exactly one sample index. -/
def is_leaf (t : TNode R) : Bool :=
  t.left_child.isNone && t.right_child.isNone && t.sample_inds.length == 1

end TNode

/-- `measurement[self.sample_inds, :]`: select the rows of a matrix named by a
list of indices (a missing index yields an empty row; the program only ever
uses in-range indices). -/
def selectRows {R : Type} (m : List (List R)) (inds : List ℕ) : List (List R) :=
  inds.map (fun i => m.getD i [])

/-- `scipy.special.logsumexp` on a two-element list, with the log/exp
primitives passed explicitly: `log (exp a + exp b)`. -/
def logsumexp2 {R : Type} [Add R] (rlog rexp : R → R) (a b : R) : R :=
  rlog (rexp a + rexp b)

section TNodeUpdates

variable {R : Type} [LinearOrderedField R]

/-- `TNode.update_pi_d`.  `gamma` models `math.gamma` (applied only to the
natural number `n_k`; Python raises `ValueError` at 0).  A missing child is a
`None` dereference (`AttributeError`); a missing child `d` is `None`
arithmetic (`TypeError`); a zero denominator is Python float division by zero
(`ZeroDivisionError`). -/
def update_pi_d (gamma : ℕ → R) (alpha : R) (t : TNode R) :
    Except PyErr (TNode R) :=
  if t.is_leaf then
    .ok (t.withPiD 1 alpha)
  else
    match t.left_child, t.right_child with
    | some l, some r =>
      let n_k := l.sample_inds.length + r.sample_inds.length
      if n_k = 0 then .error .valueError
      else
        let gnk := gamma n_k
        match l.d, r.d with
        | some dl, some dr =>
          let dv := alpha * gnk + dl * dr
          if dv = 0 then .error .zeroDivisionError
          else .ok (t.withPiD (alpha * gnk / dv) dv)
        | _, _ => .error .typeError
    | _, _ => .error .attributeError

/-- `TNode.update_ll`.  `mll` models
`scgenome.jointcnmodels.calculate_marginal_ll_simple` (module not in the
excerpt; only its call shape is used). -/
def update_ll (mll : List (List R) → List (List R) → TransModel R → R)
    (meas vars : List (List R)) (tm : TransModel R) (t : TNode R) :
    Except PyErr (TNode R) :=
  if t.is_leaf then
    .ok (t.withLl 1)
  else
    .ok (t.withLl (mll (selectRows meas t.sample_inds)
      (selectRows vars t.sample_inds) tm))

/-- `TNode.update_tree_ll`: base case on a single sample index, otherwise the
log-sum-exp mixture of the one-cluster and split hypotheses.  Missing `pi` or
`ll` is `None` arithmetic (`TypeError`); a missing child is an
`AttributeError`; a missing child `tree_ll` is again `None` arithmetic. -/
def update_tree_ll (mll : List (List R) → List (List R) → TransModel R → R)
    (rlog rexp : R → R) (meas vars : List (List R)) (tm : TransModel R)
    (t : TNode R) : Except PyErr (TNode R) :=
  if t.sample_inds.length = 1 then
    .ok (t.withTreeLl (mll (selectRows meas t.sample_inds)
      (selectRows vars t.sample_inds) tm))
  else
    match t.pi, t.ll with
    | some p, some li =>
      match t.left_child, t.right_child with
      | some l, some r =>
        match l.tree_ll, r.tree_ll with
        | some ltl, some rtl =>
          let first := rlog p + li
          let second := rlog (1 - p) + ltl + rtl
          .ok (t.withTreeLl (logsumexp2 rlog rexp first second))
        | _, _ => .error .typeError
      | _, _ => .error .attributeError
    | _, _ => .error .typeError

/-- `TNode.update_log_r`: `top = log pi + ll`,
`bottom = logsumexp [log pi + ll, log (1 - pi) + left.tree_ll + right.tree_ll]`,
`log_r = top - bottom`.  There is no leaf guard in the source: a node without
children fails on the `None` child dereference. -/
def update_log_r (rlog rexp : R → R) (t : TNode R) :
    Except PyErr (TNode R) :=
  match t.pi, t.ll with
  | some p, some li =>
    match t.left_child, t.right_child with
    | some l, some r =>
      match l.tree_ll, r.tree_ll with
      | some ltl, some rtl =>
        let top := rlog p + li
        let bottom := logsumexp2 rlog rexp (rlog p + li)
          (rlog (1 - p) + ltl + rtl)
        .ok (t.withLogR (top - bottom))
      | _, _ => .error .typeError
    | _, _ => .error .attributeError
  | _, _ => .error .typeError

/-- `TNode.update_vars`: the four updates in source order. -/
def update_vars (gamma : ℕ → R) (alpha : R)
    (mll : List (List R) → List (List R) → TransModel R → R)
    (rlog rexp : R → R) (meas vars : List (List R)) (tm : TransModel R)
    (t : TNode R) : Except PyErr (TNode R) := do
  let t1 ← update_pi_d gamma alpha t
  let t2 ← update_ll mll meas vars tm t1
  let t3 ← update_tree_ll mll rlog rexp meas vars tm t2
  update_log_r rlog rexp t3

end TNodeUpdates

/-- `TNode.get_leaves` with its accumulator argument (`leaves=None` becomes
the empty list at call sites): a node with both children absent appends
itself; one present child is descended into alone; with both children the two
recursive leaf lists are concatenated onto the accumulator. -/
def TNode.get_leaves {R : Type} : TNode R → List (TNode R) → List (TNode R)
  | .mk s none none c p v w x y, leaves => leaves ++ [.mk s none none c p v w x y]
  | .mk _ (some l) none _ _ _ _ _ _, leaves => l.get_leaves leaves
  | .mk _ none (some r) _ _ _ _ _ _, leaves => r.get_leaves leaves
  | .mk _ (some l) (some r) _ _ _ _ _ _, leaves =>
      leaves ++ l.get_leaves [] ++ r.get_leaves []

/-! ## cncluster.py: cluster coloring -/

/-- An RGBA color with exact rational components. -/
def Color : Type := ℚ × ℚ × ℚ × ℚ

instance : DecidableEq Color := by unfold Color; infer_instance

/-- The literal noise color `(0.75, 0.75, 0.75, 1.0)`. -/
def grayColor : Color := (3 / 4, 3 / 4, 3 / 4, 1)

/-- Insert an integer into a sorted list (ascending). -/
def insSorted (x : ℤ) : List ℤ → List ℤ
  | [] => [x]
  | y :: ys => if x ≤ y then x :: y :: ys else y :: insSorted x ys

/-- Ascending insertion sort on integers. -/
def sortInts : List ℤ → List ℤ
  | [] => []
  | x :: xs => insSorted x (sortInts xs)

/-- `np.sort(np.unique(ids))`: the distinct ids in ascending order. -/
def sortedUnique (ids : List ℤ) : List ℤ := sortInts ids.dedup

/-- `len(np.unique(cluster_ids[cluster_ids >= 0]))`. -/
def numColors (ids : List ℤ) : ℕ := ((ids.filter (fun x => 0 ≤ x)).dedup).length

/-- The loop body of `get_cluster_color_map`: iterate over the sorted unique
ids with the running palette index `idx`; a negative id gets the fixed gray,
a non-negative id gets `pal(idx / (num_colors - 1))` — Python integer-zero
division (`num_colors = 1`) raises `ZeroDivisionError`. -/
def ccmLoop (pal : ℚ → Color) (num_colors : ℕ) :
    List ℤ → ℚ → List (ℤ × Color) → Except PyErr (List (ℤ × Color))
  | [], _, acc => .ok acc
  | cid :: rest, idx, acc =>
    if cid < 0 then
      ccmLoop pal num_colors rest idx (acc ++ [(cid, grayColor)])
    else if (num_colors : ℤ) - 1 = 0 then .error .zeroDivisionError
    else
      ccmLoop pal num_colors rest (idx + 1)
        (acc ++ [(cid, pal (idx / ((num_colors : ℚ) - 1)))])

/-- `cncluster.get_cluster_color_map`.  `palette` models
`get_cluster_palette(n)` applied as a colormap (matplotlib, external): the
call `pal(x)` is `palette num_colors x`. -/
def get_cluster_color_map (palette : ℕ → ℚ → Color) (cluster_ids : List ℤ) :
    Except PyErr (List (ℤ × Color)) :=
  let nc := numColors cluster_ids
  ccmLoop (palette nc) nc (sortedUnique cluster_ids) 0 []

/-! ## cncluster.py: bayesian_cluster -/

/-- One row of the long-format copy-number table consumed by
`bayesian_cluster` (and produced by `poisson_bicluster` after its positional
column rename to
`["chr", "bin", "cell_id", "state", "start", "end", "cluster_id", "copy"]`). -/
structure CnRow (R : Type) where
  chr : String
  bin : ℕ
  cell_id : String
  state : ℤ
  start : ℕ
  end_ : ℕ
  cluster_id : String
  copy : R

/-- Modelled from the spec: `scgenome.utils.cn_data_to_mat_data_ids` is not in
the excerpt.  Per §4.5 it pivots the long table into (a) a per-cell
measurement matrix on the `data_id` column, (b) a retained multi-column
`matrix_data` for the `value_ids` columns, and (c) the ordered cell-id list
matching the row order; cells appear in a deterministic order (first
occurrence) and each cell's bins appear in table order. -/
def cn_data_to_mat_data_ids {R : Type} (cn_data : List (CnRow R))
    (data_id : CnRow R → R) (value_ids : List (CnRow R → R)) :
    List (List (List R)) × List (List R) × List String :=
  let cell_ids := (cn_data.map (fun r => r.cell_id)).dedup
  let rowsOf := fun c => cn_data.filter (fun r => r.cell_id = c)
  let matrix_data := cell_ids.map (fun c => (rowsOf c).map (fun r => value_ids.map (fun v => v r)))
  let measurement := cell_ids.map (fun c => (rowsOf c).map data_id)
  (matrix_data, measurement, cell_ids)

/-- One linkage row before the `merge_count` column is added:
`[i, j, r_merge, naive_dist, log_like, i_count, j_count]`. -/
structure LinkRow (R : Type) where
  i : ℤ
  j : ℤ
  r_merge : R
  naive_dist : R
  log_like : Option R
  i_count : ℕ
  j_count : ℕ

/-- A linkage row after `linkage["merge_count"] = linkage["i_count"] +
linkage["j_count"]`. -/
structure LinkRowM (R : Type) extends LinkRow R where
  merge_count : ℕ

/-- The unordered index pairs `itertools.combinations(range k, 2)` in
enumeration order, which is also the row-major order of the filled upper
triangle of the score matrix. -/
def upperPairs (k : ℕ) : List (ℕ × ℕ) :=
  (List.range k).flatMap (fun i =>
    (List.range k).filterMap (fun j => if i < j then some (i, j) else none))

/-- First maximum of `f` over a list (`np.nanargmax` returns the first flat
index attaining the maximum; the exact model has no NaN entries). -/
def argmaxBy {α R : Type} [LinearOrder R] (f : α → R) (l : List α) :
    Option α :=
  l.foldl
    (fun best x =>
      match best with
      | none => some x
      | some b => if f b < f x then some x else some b)
    none

/-- `pdist(rows).min()`: the minimum of `rowdist` over all unordered row
pairs; `min` of an empty array raises `ValueError`.  `rowdist` models the
Euclidean metric of `scipy.spatial.distance.pdist` (external). -/
def minPairwise {R : Type} [LinearOrder R] (rowdist : List R → List R → R)
    (rows : List (List R)) : Except PyErr R :=
  match (upperPairs rows.length).map
      (fun p => rowdist (rows.getD p.1 []) (rows.getD p.2 [])) with
  | [] => .error .valueError
  | v :: vs => .ok (vs.foldl min v)

/-- The candidate merge `TNode(merge_inds, left_clst, right_clst, -1)`. -/
def mkMergeNode {R : Type} (ci cj : TNode R) : TNode R :=
  .mk (ci.sample_inds ++ cj.sample_inds) (some ci) (some cj) (-1)
    none none none none none

section BayesCluster

variable {R : Type} [LinearOrderedField R]

/-- One scored candidate: the pair position, the updated merge node, its
`log_r` entry of the score matrix, and its naive distance. -/
def scorePairs (upd : TNode R → Except PyErr (TNode R))
    (rowdist : List R → List R → R) (no_nan_meas : List (List R))
    (clusters : List (TNode R)) :
    Except PyErr (List ((ℕ × ℕ) × TNode R × R × R)) :=
  (upperPairs clusters.length).mapM (fun p => do
    let some ci := clusters.get? p.1 | .error .indexError
    let some cj := clusters.get? p.2 | .error .indexError
    let merged ← upd (mkMergeNode ci cj)
    let some lr := merged.log_r | .error .typeError
    let nd ← minPairwise rowdist (selectRows no_nan_meas merged.sample_inds)
    pure (p, merged, lr, nd))

/-- The `while len(clusters) > 1` merge loop of `bayesian_cluster`, with fuel
equal to the initial cluster count (each pass removes one cluster).  The
`cluster_map` memo of the source caches recomputation of identical merge
nodes and is semantically transparent (a pure recomputation), so it is not
modelled.  Returns the linkage rows and the final cluster pool. -/
def bcLoop (upd : TNode R → Except PyErr (TNode R))
    (rowdist : List R → List R → R) (no_nan_meas : List (List R))
    (n_cells : ℕ) :
    ℕ → List (TNode R) → ℕ → List (LinkRow R) →
    Except PyErr (List (LinkRow R) × List (TNode R))
  | 0, clusters, _, acc => .ok (acc, clusters)
  | fuel + 1, clusters, li, acc =>
    if clusters.length ≤ 1 then .ok (acc, clusters)
    else do
      let scored ← scorePairs upd rowdist no_nan_meas clusters
      let some best := argmaxBy (fun x => x.2.2.1) scored | .error .valueError
      let i_max := best.1.1
      let j_max := best.1.2
      let selected := best.2.1.withClusterInd ((n_cells : ℤ) + li)
      let some lc := selected.left_child | .error .attributeError
      let some rc := selected.right_child | .error .attributeError
      let some ci := clusters.get? i_max | .error .indexError
      let some cj := clusters.get? j_max | .error .indexError
      let row : LinkRow R :=
        ⟨lc.cluster_ind, rc.cluster_ind, best.2.2.1, best.2.2.2, selected.ll,
          ci.sample_inds.length, cj.sample_inds.length⟩
      bcLoop upd rowdist no_nan_meas n_cells fuel
        ((clusters.set i_max selected).eraseIdx j_max) (li + 1) (acc ++ [row])

/-- The six components returned by `bayesian_cluster`:
`return linkage, clusters[0], cell_ids, matrix_data, measurement, variances`. -/
structure BCResult (R : Type) where
  linkage : List (LinkRowM R)
  root : TNode R
  cell_ids : List String
  matrix_data : List (List (List R))
  measurement : List (List R)
  variances : List (List R)

/-- `cncluster.bayesian_cluster`.  Beyond the table and the hyperparameters,
the model threads the external primitives: `mll` for
`calculate_marginal_ll_simple`, `getVar` for `jointcnmodels.get_variances`
(module not in the excerpt), `rlog`/`rexp` for `np.log`/`np.exp`, `gamma` for
`math.gamma`, and `rowdist` for the `pdist` row metric.  `np.nan_to_num` is
the identity here because the exact model has no NaN (the cn_data invariant
makes the pivot total). -/
def bayesian_cluster
    (mll : List (List R) → List (List R) → TransModel R → R)
    (rlog rexp : R → R) (gamma : ℕ → R) (rowdist : List R → List R → R)
    (getVar : List (CnRow R) → List (List (List R)) → ℤ → List (List R))
    (cn_data : List (CnRow R)) (n_states : ℤ) (alpha prob_cn_change : R)
    (value_ids : List (CnRow R → R)) (clustering_id : CnRow R → R) :
    Except PyErr (BCResult R) := do
  let mats := cn_data_to_mat_data_ids cn_data clustering_id value_ids
  let matrix_data := mats.1
  let measurement := mats.2.1
  let cell_ids := mats.2.2
  let variances := getVar cn_data matrix_data n_states
  let no_nan_meas := measurement
  let n_cells := measurement.length
  let transmodel : TransModel R := ⟨"twoparam", prob_cn_change, 1 - prob_cn_change⟩
  let upd := update_vars gamma alpha mll rlog rexp measurement variances transmodel
  let clusters0 := (List.range n_cells).map
    (fun i => TNode.mk [i] none none (i : ℤ) (some 0) (some alpha) none none none)
  let clusters ← clusters0.mapM upd
  let looped ← bcLoop upd rowdist no_nan_meas n_cells clusters.length clusters 0 []
  let some root := looped.2.get? 0 | .error .indexError
  let linkage := looped.1.map (fun r => LinkRowM.mk r (r.i_count + r.j_count))
  pure ⟨linkage, root, cell_ids, matrix_data, measurement, variances⟩

end BayesCluster

/-! ## cncluster.py: prune_cluster over a small dataframe model -/

/-- A pandas cell value as this code observes it: a string, an integer
cluster label, or a missing value (`NaN`, what `Series.map` yields for keys
absent from the mapping). -/
inductive PVal : Type where
  | str (s : String)
  | int (z : ℤ)
  | nan
deriving DecidableEq, Repr

/-- A dataframe: named columns in order, each a list of cell values. -/
structure DF where
  cols : List (String × List PVal)
deriving DecidableEq, Repr

/-- `df[name]`: the first column of that name (`KeyError` when absent is
handled at use sites). -/
def DF.getCol (df : DF) (name : String) : Option (List PVal) :=
  (df.cols.find? (fun p => p.1 = name)).map (fun p => p.2)

/-- `df[name] = vals`: overwrite an existing column in place, or append a new
column at the end. -/
def DF.setCol (df : DF) (name : String) (vals : List PVal) : DF :=
  if df.cols.any (fun p => p.1 = name) then
    ⟨df.cols.map (fun p => if p.1 = name then (p.1, vals) else p)⟩
  else
    ⟨df.cols ++ [(name, vals)]⟩

/-- Lookup in which the last binding wins, matching the Python dict
comprehension `{cell_ids[i]: fclustering[i] for i in range(len(fclustering))}`
where a repeated key keeps the last value. -/
def lookupLast (key : String) (l : List (String × ℤ)) : Option ℤ :=
  (l.reverse.find? (fun p => p.1 = key)).map (fun p => p.2)

/-- `Series.map(dict)` on one cell: a string key found in the dict maps to
its label; anything else (missing key, non-string cell) becomes `NaN`. -/
def mapLabel (cmap : List (String × ℤ)) : PVal → PVal
  | .str s =>
    match lookupLast s cmap with
    | some z => .int z
    | none => .nan
  | _ => .nan

/-- `cncluster.prune_cluster`.  Returns the pair (returned table, state of the
caller's `cn_data` after the call): with `inplace=False` the input is copied
first, so the caller's table is unchanged; with `inplace=True` the mutation is
shared.  Building the dict indexes `cell_ids[i]` for `i < len(fclustering)`,
an `IndexError` when `cell_ids` is shorter; a table without a `cell_id`
column is a `KeyError`. -/
def prune_cluster (fclustering : List ℤ) (cell_ids : List String)
    (cn_data : DF) (cluster_field_name : String) (inplace : Bool) :
    Except PyErr (DF × DF) :=
  if cell_ids.length < fclustering.length then .error .indexError
  else
    match cn_data.getCol "cell_id" with
    | none => .error .keyError
    | some cellvals =>
      let cmap := cell_ids.zip fclustering
      let newcol := cellvals.map (mapLabel cmap)
      let res := cn_data.setCol cluster_field_name newcol
      .ok (res, if inplace then res else cn_data)

/-! ## simulation.py: cn_mat_poisson -/

/-- `signs[np.where(signs == 0)] = -1`: a drawn 0 becomes −1, any other draw
is kept (a fair `binomial(n=1)` draw is 0 or 1). -/
def signVal (s : ℕ) : ℤ := if s = 0 then -1 else (s : ℤ)

/-- The entry `cn_mat[r, c]` of `cn_mat_poisson`, as a function of the
outcome streams: column 0 is the initial draw for the row; column `c ≥ 1` is
the previous column plus the signed jump
`signs[i] * all_jumps[i]` at the flat counter `i = r*(num_bin-1) + (c-1)`,
first floored at 0 and then capped at `max_cn`. -/
def cnCell (num_bin : ℕ) (max_cn : ℤ) (first jumps signs : ℕ → ℕ) (r : ℕ) :
    ℕ → ℤ
  | 0 => (first r : ℤ)
  | c + 1 =>
    min (max (cnCell num_bin max_cn first jumps signs r c +
        signVal (signs (r * (num_bin - 1) + c)) *
          (jumps (r * (num_bin - 1) + c) : ℤ)) 0) max_cn

/-- `simulation.cn_mat_poisson` as a function of the draw outcomes: `first`
is the stream of initial `init_rng(init_lambda)` draws (one per sample),
`jumps` the stream of `jump_rng(jump_lambda)` draws and `signs` the stream of
`binomial(1, 0.5)` draws (both consumed row-major over the `num_bin - 1`
jump columns).  The result is already integral, so `astype("int")` is the
identity. -/
def cn_mat_poisson (num_sample num_bin : ℕ) (max_cn : ℤ)
    (first jumps signs : ℕ → ℕ) : List (List ℤ) :=
  (List.range num_sample).map (fun r =>
    (List.range num_bin).map (cnCell num_bin max_cn first jumps signs r))

/-- The global numpy random generator as this code observes it: a state type,
`seedFn` for `np.random.seed`, and the two deterministic draw primitives
(`poisson lam size` and `binomial n p size`), each returning the drawn values
and the advanced state. -/
structure RngModel (S : Type) where
  seedFn : ℕ → S
  poisson : ℚ → ℕ → S → List ℕ × S
  binomial : ℕ → ℚ → ℕ → S → List ℕ × S

/-- `simulation.cn_mat_poisson` with the global-generator state passed
explicitly: when a seed is given the generator is reseeded before each of the
three draw phases (initial values, jump magnitudes, jump signs), otherwise
the incoming state is threaded through.  Returns the matrix together with
the final generator state. -/
def cn_mat_poisson_rng {S : Type} (M : RngModel S) (num_sample num_bin : ℕ)
    (init_lambda jump_lambda : ℚ) (seed : Option ℕ) (max_cn : ℤ) (s0 : S) :
    List (List ℤ) × S :=
  let s1 := match seed with | some k => M.seedFn k | none => s0
  let firstDraw := M.poisson init_lambda num_sample s1
  let num_jump := (num_bin - 1) * num_sample
  let s2 := match seed with | some k => M.seedFn k | none => firstDraw.2
  let jumpDraw := M.poisson jump_lambda num_jump s2
  let s3 := match seed with | some k => M.seedFn k | none => jumpDraw.2
  let signDraw := M.binomial 1 (1 / 2) num_jump s3
  (cn_mat_poisson num_sample num_bin max_cn
      (fun i => firstDraw.1.getD i 0)
      (fun i => jumpDraw.1.getD i 0)
      (fun i => signDraw.1.getD i 0),
    signDraw.2)

/-! ## simulation.py: get_prop_correct -/

/-- The number of rows on which the expected and observed labels agree. -/
def eqCount {T : Type} [DecidableEq T] (t : List (T × T)) : ℕ :=
  (t.filter (fun r => r.1 = r.2)).length

/-- `simulation.get_prop_correct`:
`max((clustering["exp_cl"] == clustering["obs_cl"]).value_counts() / clustering.shape[0])`.
`value_counts` lists the counts of the boolean outcomes that actually occur;
dividing by the row count normalizes them; Python `max` of an empty iterable
(empty table) raises `ValueError`. -/
def get_prop_correct {T : Type} [DecidableEq T] (t : List (T × T)) :
    Except PyErr ℚ :=
  let n := t.length
  let ct := eqCount t
  let cf := n - ct
  let vals := (if 0 < ct then [(ct : ℚ) / n] else []) ++
    (if 0 < cf then [(cf : ℚ) / n] else [])
  match vals with
  | [] => .error .valueError
  | v :: vs => .ok (vs.foldl max v)

/-! ## simulation.py: poisson_bicluster -/

/-- A linkage row of `get_plot_data` after `plinkage["dist"] = -1 * r_merge`. -/
structure PLinkRow (R : Type) extends LinkRowM R where
  dist : R

/-- `simulation.get_plot_data`: adds the negated `r_merge` as `dist` and
extracts the `[i, j, dist, merge_count]` numeric matrix. -/
def get_plot_data {R : Type} [LinearOrderedField R] (tlinkage : List (LinkRowM R)) :
    List (PLinkRow R) × List (List R) :=
  let plinkage := tlinkage.map (fun r => PLinkRow.mk r (-1 * r.r_merge))
  (plinkage, plinkage.map (fun r =>
    [(r.i : R), (r.j : R), r.dist, (r.merge_count : R)]))

/-- One row of the per-cell clustering comparison table built by
`poisson_bicluster`. -/
structure ClRow where
  sample_ind : ℕ
  cell_id : String
  exp_cl : String
  obs_cl : Option String
deriving DecidableEq, Repr

/-- The accumulator row `df` of `poisson_bicluster`: the fields the function
writes onto it. -/
structure SimRow (R : Type) where
  cn_data : Option (List (CnRow R)) := none
  cn_mat : Option (List (List ℤ)) := none
  plinkage : Option (List (PLinkRow R)) := none
  plot_data : Option (List (List R)) := none
  clustering : Option (List ClRow) := none
  prop_correct : Option ℚ := none
  cell_id : Option (List String) := none

/-- What `poisson_bicluster` returns: the five-value tuple, or the
accumulator row when `df` was supplied. -/
inductive PBReturn (R : Type) where
  | tuple (cn_data : List (CnRow R)) (plinkage : List (PLinkRow R))
      (plot_data : List (List R)) (clustering : List ClRow)
      (prop_correct : ℚ)
  | row (df : SimRow R)

/-- One component of the tuple value `bayesian_cluster` returns, for
modelling Python tuple unpacking at its call sites. -/
inductive BCComp (R : Type) where
  | linkage (l : List (LinkRowM R))
  | node (t : TNode R)
  | ids (l : List String)
  | mdata (m : List (List (List R)))
  | mat (m : List (List R))

/-- The `return linkage, clusters[0], cell_ids, matrix_data, measurement,
variances` statement of `bayesian_cluster` as the runtime tuple it builds. -/
def BCResult.toTuple {R : Type} (b : BCResult R) : List (BCComp R) :=
  [.linkage b.linkage, .node b.root, .ids b.cell_ids, .mdata b.matrix_data,
    .mat b.measurement, .mat b.variances]

/-- Python unpacking `a, b, c = t`: succeeds only when the tuple has exactly
three components, otherwise `ValueError` (too many/not enough values to
unpack). -/
def unpack3 {α : Type} : List α → Except PyErr (α × α × α)
  | [a, b, c] => .ok (a, b, c)
  | _ => .error .valueError

def BCComp.asLinkage {R : Type} : BCComp R → Option (List (LinkRowM R))
  | .linkage l => some l
  | _ => none

def BCComp.asNode {R : Type} : BCComp R → Option (TNode R)
  | .node t => some t
  | _ => none

def BCComp.asIds {R : Type} : BCComp R → Option (List String)
  | .ids l => some l
  | _ => none

/-- Modelled from the spec: `scgenome.utils.cn_mat_as_df` and
`cn_mat_to_cn_data` are not in the excerpt.  Per §4.5 they turn a cells×bins
matrix plus chromosome names into a long-format table with one row per
(cell, bin) in row-major order, carrying chromosome, bin, cell id, value and
start/end columns.  This definition composes them with the two column
additions of `poisson_bicluster` (`cluster_id` = the cell id up to the first
underscore, `copy2` = value + |Normal noise|, one draw per table row in row
order) and the positional rename
`["chr", "bin", "cell_id", "state", "start", "end", "cluster_id", "copy"]`,
producing the table handed to `bayesian_cluster`.  How bins are apportioned
among the chromosome names is immaterial to every claim and is modelled
proportionally. -/
def simCnData {R : Type} [LinearOrderedField R] (cn_mat : List (List ℤ))
    (chr_names : List String) (cell_ids : List String) (num_bin : ℕ)
    (noise : ℕ → R) : List (CnRow R) :=
  (List.range cn_mat.length).flatMap (fun r =>
    (List.range num_bin).map (fun c =>
      let cid := cell_ids.getD r ""
      let st := (cn_mat.getD r []).getD c 0
      { chr := chr_names.getD (c * chr_names.length / max num_bin 1) ""
        bin := c
        cell_id := cid
        state := st
        start := c
        end_ := c + 1
        cluster_id := ((cid.splitOn "_").getD 0 "")
        copy := (st : R) + |noise (r * num_bin + c)| }))

/-- `simulation.poisson_bicluster` as a function of the draw outcomes of its
two `cn_mat_poisson` calls (`first/jumps/signs` streams per cluster) and of
the noise draws.  The clustering column defaults to the noisy `copy` column
(spec §4.8); the external primitives are threaded as in `bayesian_cluster`. -/
def poisson_bicluster {R : Type} [LinearOrderedField R]
    (mll : List (List R) → List (List R) → TransModel R → R)
    (rlog rexp : R → R) (gamma : ℕ → R) (rowdist : List R → List R → R)
    (getVar : List (CnRow R) → List (List (List R)) → ℤ → List (List R))
    (samples_per_cluster num_bin : ℕ) (max_cn : ℤ) (alpha : R)
    (df : Option (SimRow R))
    (first1 jumps1 signs1 first2 jumps2 signs2 : ℕ → ℕ) (noise : ℕ → R) :
    Except PyErr (PBReturn R) := do
  let cluster1 := cn_mat_poisson samples_per_cluster num_bin max_cn
    first1 jumps1 signs1
  let cluster2 := cn_mat_poisson samples_per_cluster num_bin max_cn
    first2 jumps2 signs2
  let clst1_cell_ids := (List.range samples_per_cluster).map
    (fun i => "cl1_cell" ++ toString i)
  let clst2_cell_ids := (List.range samples_per_cluster).map
    (fun i => "cl2_cell" ++ toString i)
  let cn_mat := cluster1 ++ cluster2
  let cell_ids := clst1_cell_ids ++ clst2_cell_ids
  let cn_data := simCnData cn_mat ["1", "2"] cell_ids num_bin noise
  let res ← bayesian_cluster mll rlog rexp gamma rowdist getVar cn_data
    max_cn alpha (8 / 10) [fun r => r.copy] (fun r => r.copy)
  let tup ← unpack3 res.toTuple
  let some tlinkage := tup.1.asLinkage | .error .typeError
  let some root := tup.2.1.asNode | .error .typeError
  let some _cl_cell_ids := tup.2.2.asIds | .error .typeError
  let pd := get_plot_data tlinkage
  let plinkage := pd.1
  let plot_data := pd.2
  let some lchild := root.left_child | .error .attributeError
  let some rchild := root.right_child | .error .attributeError
  let left_samples ← (lchild.get_leaves []).mapM (fun x =>
    match x.sample_inds.get? 0 with
    | some v => Except.ok v
    | none => Except.error PyErr.indexError)
  let right_samples ← (rchild.get_leaves []).mapM (fun x =>
    match x.sample_inds.get? 0 with
    | some v => Except.ok v
    | none => Except.error PyErr.indexError)
  let clustering := (List.range cn_mat.length).map (fun i =>
    let cid := cell_ids.getD i ""
    ClRow.mk i cid ((cid.drop 2).take 1)
      (if i ∈ left_samples then some "1"
       else if i ∈ right_samples then some "2" else none))
  let prop_correct ← get_prop_correct
    (clustering.map (fun r => (some r.exp_cl, r.obs_cl)))
  match df with
  | some dfr =>
    pure (.row { dfr with
      cn_data := some cn_data, cn_mat := some cn_mat,
      plinkage := some plinkage, plot_data := some plot_data,
      clustering := some clustering, prop_correct := some prop_correct,
      cell_id := some cell_ids })
  | none => pure (.tuple cn_data plinkage plot_data clustering prop_correct)

/-! ## Concrete instances used by counterexamples and witnesses -/

/-- `math.gamma` restricted to the positive integer arguments this program
passes to it: `Γ(n) = (n − 1)!`, here over `ℚ` for executable checks. -/
def gammaQ (n : ℕ) : ℚ := ((n - 1).factorial : ℚ)

/-- A non-leaf node with both children absent (two sample indices, no
children), reachable by constructing `TNode([0, 1], None, None, -1)`. -/
def tNoChildren : TNode ℚ := .mk [0, 1] none none (-1) none none none none none

/-- A non-leaf node with only the left child absent. -/
def tNoLeftChild : TNode ℚ :=
  .mk [0, 1] none (some (.mk [1] none none 1 none none none none none)) (-1)
    none none none none none

/-- A table that already carries a `bhc_cluster_id` column. -/
def df9 : DF := ⟨[("cell_id", [.str "a"]), ("bhc_cluster_id", [.int 99])]⟩

/-- A table without a pre-existing cluster column. -/
def df9b : DF := ⟨[("cell_id", [.str "a", .str "b"]), ("reads", [.int 7, .int 8])]⟩

/-- A trivial palette model (every requested color is opaque black). -/
def palette0 : ℕ → ℚ → Color := fun _ _ => (0, 0, 0, 1)

/-- A leaf with its statistics filled in, as the clustering loop would have
after `update_vars` (`pi = 1`, `d = alpha = 1`, `ll = 1`, `tree_ll` some
value). -/
noncomputable def leafA : TNode ℝ := .mk [0] none none 0 (some 1) (some 1) (some 1) (some 0) none

noncomputable def leafB : TNode ℝ := .mk [1] none none 1 (some 1) (some 1) (some 1) (some 0) none

/-- A candidate merge node over the two leaves, before `update_vars`. -/
noncomputable def tInternalR : TNode ℝ := .mk [0, 1] (some leafA) (some leafB) (-1) none none none none none

/-- The transition model with the default `prob_cn_change = 0.8`. -/
noncomputable def tmR : TransModel ℝ := ⟨"twoparam", 8 / 10, 2 / 10⟩

/-- A two-cell, one-bin copy-number table. -/
def cndC1 : List (CnRow ℚ) :=
  [⟨"1", 0, "SA1-A1", 2, 0, 1, "", 2⟩, ⟨"1", 0, "SA1-A2", 3, 0, 1, "", 3⟩]

/-- The mixture weight `update_pi_d` computes on `tInternalR` with
`alpha = 1` and `math.gamma = Real.Gamma`. -/
noncomputable def piInternal : ℝ :=
  1 * Real.Gamma ((1 + 1 : ℕ) : ℝ) / (1 * Real.Gamma ((1 + 1 : ℕ) : ℝ) + 1 * 1)

/-- The matching normalization term. -/
noncomputable def dInternal : ℝ := 1 * Real.Gamma ((1 + 1 : ℕ) : ℝ) + 1 * 1

/-- `tInternalR` after `update_pi_d`. -/
noncomputable def tInternalAfterPiD : TNode ℝ :=
  .mk [0, 1] (some leafA) (some leafB) (-1) (some piInternal) (some dInternal)
    none none none

/-- The subtree marginal `update_tree_ll` computes on `tInternalR` with the
constant-zero likelihood model. -/
noncomputable def treeLlInternal : ℝ :=
  logsumexp2 Real.log Real.exp (Real.log piInternal + 0)
    (Real.log (1 - piInternal) + 0 + 0)

/-- `tInternalR` after the full `update_vars` chain. -/
noncomputable def tInternalAfterVars : TNode ℝ :=
  .mk [0, 1] (some leafA) (some leafB) (-1) (some piInternal) (some dInternal)
    (some 0) (some treeLlInternal)
    (some (Real.log piInternal + 0 - treeLlInternal))

/-! ## Helper lemmas: field accessors under the update writers -/

section AccessorLemmas

variable {R : Type} (t : TNode R) (p v : R) (c : ℤ)

@[simp] theorem TNode.pi_withPiD : (t.withPiD p v).pi = some p := by cases t; rfl
@[simp] theorem TNode.d_withPiD : (t.withPiD p v).d = some v := by cases t; rfl
@[simp] theorem TNode.sample_inds_withPiD : (t.withPiD p v).sample_inds = t.sample_inds := by cases t; rfl
@[simp] theorem TNode.left_withPiD : (t.withPiD p v).left_child = t.left_child := by cases t; rfl
@[simp] theorem TNode.right_withPiD : (t.withPiD p v).right_child = t.right_child := by cases t; rfl
@[simp] theorem TNode.ll_withPiD : (t.withPiD p v).ll = t.ll := by cases t; rfl
@[simp] theorem TNode.tree_ll_withPiD : (t.withPiD p v).tree_ll = t.tree_ll := by cases t; rfl
@[simp] theorem TNode.log_r_withPiD : (t.withPiD p v).log_r = t.log_r := by cases t; rfl

@[simp] theorem TNode.ll_withLl : (t.withLl v).ll = some v := by cases t; rfl
@[simp] theorem TNode.pi_withLl : (t.withLl v).pi = t.pi := by cases t; rfl
@[simp] theorem TNode.d_withLl : (t.withLl v).d = t.d := by cases t; rfl
@[simp] theorem TNode.sample_inds_withLl : (t.withLl v).sample_inds = t.sample_inds := by cases t; rfl
@[simp] theorem TNode.left_withLl : (t.withLl v).left_child = t.left_child := by cases t; rfl
@[simp] theorem TNode.right_withLl : (t.withLl v).right_child = t.right_child := by cases t; rfl
@[simp] theorem TNode.tree_ll_withLl : (t.withLl v).tree_ll = t.tree_ll := by cases t; rfl
@[simp] theorem TNode.log_r_withLl : (t.withLl v).log_r = t.log_r := by cases t; rfl

@[simp] theorem TNode.tree_ll_withTreeLl : (t.withTreeLl v).tree_ll = some v := by cases t; rfl
@[simp] theorem TNode.pi_withTreeLl : (t.withTreeLl v).pi = t.pi := by cases t; rfl
@[simp] theorem TNode.d_withTreeLl : (t.withTreeLl v).d = t.d := by cases t; rfl
@[simp] theorem TNode.ll_withTreeLl : (t.withTreeLl v).ll = t.ll := by cases t; rfl
@[simp] theorem TNode.sample_inds_withTreeLl : (t.withTreeLl v).sample_inds = t.sample_inds := by cases t; rfl
@[simp] theorem TNode.left_withTreeLl : (t.withTreeLl v).left_child = t.left_child := by cases t; rfl
@[simp] theorem TNode.right_withTreeLl : (t.withTreeLl v).right_child = t.right_child := by cases t; rfl
@[simp] theorem TNode.log_r_withTreeLl : (t.withTreeLl v).log_r = t.log_r := by cases t; rfl

@[simp] theorem TNode.log_r_withLogR : (t.withLogR v).log_r = some v := by cases t; rfl
@[simp] theorem TNode.pi_withLogR : (t.withLogR v).pi = t.pi := by cases t; rfl
@[simp] theorem TNode.ll_withLogR : (t.withLogR v).ll = t.ll := by cases t; rfl
@[simp] theorem TNode.tree_ll_withLogR : (t.withLogR v).tree_ll = t.tree_ll := by cases t; rfl
@[simp] theorem TNode.d_withLogR : (t.withLogR v).d = t.d := by cases t; rfl
@[simp] theorem TNode.sample_inds_withLogR : (t.withLogR v).sample_inds = t.sample_inds := by cases t; rfl
@[simp] theorem TNode.left_withLogR : (t.withLogR v).left_child = t.left_child := by cases t; rfl
@[simp] theorem TNode.right_withLogR : (t.withLogR v).right_child = t.right_child := by cases t; rfl

end AccessorLemmas

/-- A node whose left child is present is not a leaf. -/
theorem TNode.is_leaf_false_of_left {R : Type} {t : TNode R} {l : TNode R}
    (hl : t.left_child = some l) : t.is_leaf = false := by
  simp [TNode.is_leaf, hl]

/-- Inversion for a successful `Except` bind. -/
theorem except_bind_eq_ok {ε α β : Type} {e : Except ε α} {f : α → Except ε β}
    {b : β} (h : (e >>= f) = .ok b) : ∃ a, e = .ok a ∧ f a = .ok b := by
  cases e with
  | error err => exact absurd h (by simp [Bind.bind, Except.bind])
  | ok a => exact ⟨a, rfl, h⟩

/-- A bind on an error is that error. -/
theorem except_error_bind {ε α β : Type} (e : ε) (f : α → Except ε β) :
    ((Except.error e : Except ε α) >>= f) = .error e := rfl

/-! ## C8 -/

/-- C8: `cn_mat_poisson` is deterministic under a fixed seed.  For any model
of the global generator, a fixed seed `k` makes the result independent of the
generator state the call starts from (so two invocations with identical
arguments produce identical matrices), and the matrix is exactly the one
built from the three draw phases each started at the reseeded state
`seedFn k` (initial values, jump magnitudes, jump signs). -/
theorem cn_mat_poisson_seed_deterministic {S : Type} (M : RngModel S)
    (num_sample num_bin : ℕ) (init_lambda jump_lambda : ℚ) (k : ℕ)
    (max_cn : ℤ) (s0 s1 : S) :
    (cn_mat_poisson_rng M num_sample num_bin init_lambda jump_lambda
        (some k) max_cn s0).1 =
      (cn_mat_poisson_rng M num_sample num_bin init_lambda jump_lambda
        (some k) max_cn s1).1 ∧
    (cn_mat_poisson_rng M num_sample num_bin init_lambda jump_lambda
        (some k) max_cn s0).1 =
      cn_mat_poisson num_sample num_bin max_cn
        (fun i => (M.poisson init_lambda num_sample (M.seedFn k)).1.getD i 0)
        (fun i => (M.poisson jump_lambda ((num_bin - 1) * num_sample)
          (M.seedFn k)).1.getD i 0)
        (fun i => (M.binomial 1 (1 / 2) ((num_bin - 1) * num_sample)
          (M.seedFn k)).1.getD i 0) :=
  ⟨rfl, rfl⟩

/-! ## C5 -/

/-- C5 counterexample: the first column of `cn_mat_poisson` is written from
the initial draws without clamping, so an initial Poisson outcome of 5 with
`max_cn = 2` (and `num_sample = num_bin = 1`) yields the matrix `[[5]]`,
whose entry is outside `[0, max_cn]`. -/
theorem cn_mat_poisson_first_column_exceeds_max :
    ∃ row ∈ cn_mat_poisson 1 1 2 (fun _ => 5) (fun _ => 0) (fun _ => 0),
      ∃ x ∈ row, ¬(0 ≤ x ∧ x ≤ 2) := by
  refine ⟨[5], by decide, 5, by decide, by decide⟩

/-- C5 amended: for `max_cn ≥ 0` and any outcome of the draws, every entry of
`cn_mat_poisson` is non-negative, and every entry beyond the first column is
at most `max_cn`; the first column equals the unclamped initial draws and may
exceed `max_cn`. -/
theorem cn_mat_poisson_entries_bounded (num_sample num_bin : ℕ) (max_cn : ℤ)
    (first jumps signs : ℕ → ℕ) (hmc : 0 ≤ max_cn) :
    ∀ row ∈ cn_mat_poisson num_sample num_bin max_cn first jumps signs,
      ∀ c : ℕ, ∀ x : ℤ, row.get? c = some x →
        0 ≤ x ∧ (1 ≤ c → x ≤ max_cn) := by
  intro row hrow c x hx
  rw [cn_mat_poisson, List.mem_map] at hrow
  obtain ⟨r, _, rfl⟩ := hrow
  rw [List.get?_map] at hx
  cases hc : (List.range num_bin).get? c with
  | none => rw [hc] at hx; exact absurd hx (by simp)
  | some c0 =>
    rw [hc] at hx
    have hcc : c0 = c := by
      have := List.get?_mem hc
      have hlt : c < num_bin := by
        by_contra hcon
        rw [List.get?_eq_none.mpr (by simpa using Nat.le_of_not_lt hcon)] at hc
        exact absurd hc (by simp)
      rw [List.get?_range hlt] at hc
      exact (Option.some_inj.mp hc).symm
    subst hcc
    obtain rfl : cnCell num_bin max_cn first jumps signs r c0 = x :=
      Option.some_inj.mp hx
    constructor
    · cases c0 with
      | zero => exact Int.natCast_nonneg _
      | succ m =>
        rw [cnCell]
        exact le_min (le_max_right _ _) hmc
    · intro hc1
      cases c0 with
      | zero => exact absurd hc1 (by omega)
      | succ m =>
        rw [cnCell]
        exact min_le_right _ _

/-- C5 amended, witness: at `num_sample = 1`, `num_bin = 2`, `max_cn = 3`
with initial draw 5, jump 9, sign draw 1 (`+1`), the hypotheses hold and the
second column of `[[5, 3]]` is clamped into `[0, 3]`. -/
theorem cn_mat_poisson_entries_bounded_witness :
    (0 : ℤ) ≤ 3 ∧
    (∀ row ∈ cn_mat_poisson 1 2 3 (fun _ => 5) (fun _ => 9) (fun _ => 1),
      ∀ c : ℕ, ∀ x : ℤ, row.get? c = some x → 0 ≤ x ∧ (1 ≤ c → x ≤ 3)) :=
  ⟨by decide,
    cn_mat_poisson_entries_bounded 1 2 3 (fun _ => 5) (fun _ => 9)
      (fun _ => 1) (by decide)⟩

/-! ## C4 -/

/-- C4 counterexample: `update_pi_d` on the non-leaf node with both children
absent fails with the `None`-dereference error (Python `AttributeError` from
`self.left_child.sample_inds`), which is not the InvalidState/NO_CHILDREN
error the claim requires; likewise with only one child absent. -/
theorem update_pi_d_no_children_cex :
    update_pi_d gammaQ 1 tNoChildren = Except.error PyErr.attributeError ∧
    update_pi_d gammaQ 1 tNoLeftChild = Except.error PyErr.attributeError ∧
    PyErr.attributeError ≠ PyErr.invalidState := by
  refine ⟨rfl, rfl, by decide⟩

/-- C4 amended: on every node that is not a leaf and has one or both
children absent, `update_pi_d` fails with the `None`-attribute-access error
(`AttributeError`), not with an InvalidState error — the NO_CHILDREN guard
present in the commented-out `get_pi_d` is absent from the live code. -/
theorem update_pi_d_missing_children {R : Type} [LinearOrderedField R]
    (gamma : ℕ → R) (alpha : R) (t : TNode R) (hleaf : t.is_leaf = false)
    (hmiss : t.left_child = none ∨ t.right_child = none) :
    update_pi_d gamma alpha t = Except.error PyErr.attributeError := by
  rcases hmiss with h | h
  · cases hr : t.right_child <;> simp [update_pi_d, hleaf, h, hr]
  · cases hl : t.left_child <;> simp [update_pi_d, hleaf, h, hl]

/-- C4 amended, witness: the two-sample childless node satisfies the
hypotheses and indeed yields the `AttributeError`. -/
theorem update_pi_d_missing_children_witness :
    tNoChildren.is_leaf = false ∧ tNoChildren.left_child = none ∧
    update_pi_d gammaQ 1 tNoChildren = Except.error PyErr.attributeError :=
  ⟨rfl, rfl, update_pi_d_missing_children gammaQ 1 tNoChildren rfl (Or.inl rfl)⟩

/-! ## C7 -/

theorem mem_insSorted (x y : ℤ) (l : List ℤ) :
    x ∈ insSorted y l ↔ x = y ∨ x ∈ l := by
  induction l with
  | nil => simp [insSorted]
  | cons a as ih =>
    simp only [insSorted]
    split
    · simp [List.mem_cons]
    · simp only [List.mem_cons, ih]
      tauto

theorem mem_sortInts (x : ℤ) (l : List ℤ) : x ∈ sortInts l ↔ x ∈ l := by
  induction l with
  | nil => simp [sortInts]
  | cons a as ih => simp [sortInts, mem_insSorted, ih]

theorem mem_sortedUnique (x : ℤ) (ids : List ℤ) :
    x ∈ sortedUnique ids ↔ x ∈ ids := by
  simp [sortedUnique, mem_sortInts, List.mem_dedup]

/-- If `num_colors = 0` then every id in the array is negative. -/
theorem all_neg_of_numColors_zero {ids : List ℤ} (h : numColors ids = 0) :
    ∀ x ∈ ids, x < 0 := by
  intro x hx
  unfold numColors at h
  rw [List.length_eq_zero, List.dedup_eq_nil, List.filter_eq_nil] at h
  simpa using h x hx

/-- The color-map loop succeeds as long as no non-negative id is processed
while `num_colors = 1`. -/
theorem ccmLoop_ok (pal : ℚ → Color) (nc : ℕ) :
    ∀ (l : List ℤ) (idx : ℚ) (acc : List (ℤ × Color)),
      (∀ x ∈ l, 0 ≤ x → (nc : ℤ) - 1 ≠ 0) →
      ∃ m, ccmLoop pal nc l idx acc = .ok m := by
  intro l
  induction l with
  | nil => exact fun idx acc _ => ⟨acc, rfl⟩
  | cons a as ih =>
    intro idx acc hcond
    by_cases ha : a < 0
    · simpa [ccmLoop, ha] using
        ih idx (acc ++ [(a, grayColor)]) (fun x hx => hcond x (by simp [hx]))
    · have hne := hcond a (by simp) (not_lt.mp ha)
      simpa [ccmLoop, ha, hne] using
        ih (idx + 1) (acc ++ [(a, pal (idx / ((nc : ℚ) - 1)))])
          (fun x hx => hcond x (by simp [hx]))

/-- Everything already accumulated survives into the final map. -/
theorem ccmLoop_acc_mem (pal : ℚ → Color) (nc : ℕ) :
    ∀ (l : List ℤ) (idx : ℚ) (acc m : List (ℤ × Color)),
      ccmLoop pal nc l idx acc = .ok m → ∀ e ∈ acc, e ∈ m := by
  intro l
  induction l with
  | nil =>
    intro idx acc m h e he
    obtain rfl : acc = m := by simpa [ccmLoop] using h
    exact he
  | cons a as ih =>
    intro idx acc m h e he
    by_cases ha : a < 0
    · rw [ccmLoop, if_pos ha] at h
      exact ih _ _ _ h e (by simp [he])
    · rw [ccmLoop, if_neg ha] at h
      by_cases hz : (nc : ℤ) - 1 = 0
      · rw [if_pos hz] at h; exact absurd h (by simp)
      · rw [if_neg hz] at h
        exact ih _ _ _ h e (by simp [he])

/-- Every negative id processed by the loop is bound to the gray color in the
final map. -/
theorem ccmLoop_neg_mem_gray (pal : ℚ → Color) (nc : ℕ) :
    ∀ (l : List ℤ) (idx : ℚ) (acc m : List (ℤ × Color)),
      ccmLoop pal nc l idx acc = .ok m →
      ∀ x ∈ l, x < 0 → (x, grayColor) ∈ m := by
  intro l
  induction l with
  | nil => intro _ _ _ _ x hx; exact absurd hx (by simp)
  | cons a as ih =>
    intro idx acc m h x hx hneg
    by_cases ha : a < 0
    · rw [ccmLoop, if_pos ha] at h
      rcases List.mem_cons.mp hx with rfl | hx0
      · exact ccmLoop_acc_mem pal nc as _ _ _ h (x, grayColor) (by simp)
      · exact ih _ _ _ h x hx0 hneg
    · rw [ccmLoop, if_neg ha] at h
      by_cases hz : (nc : ℤ) - 1 = 0
      · rw [if_pos hz] at h; exact absurd h (by simp)
      · rw [if_neg hz] at h
        rcases List.mem_cons.mp hx with rfl | hx0
        · exact absurd hneg ha
        · exact ih _ _ _ h x hx0 hneg

/-- Conversely, a negative id is never bound to anything but gray. -/
theorem ccmLoop_neg_only_gray (pal : ℚ → Color) (nc : ℕ) :
    ∀ (l : List ℤ) (idx : ℚ) (acc m : List (ℤ × Color)),
      ccmLoop pal nc l idx acc = .ok m →
      (∀ e ∈ acc, e.1 < 0 → e.2 = grayColor) →
      ∀ e ∈ m, e.1 < 0 → e.2 = grayColor := by
  intro l
  induction l with
  | nil =>
    intro idx acc m h hacc
    obtain rfl : acc = m := by simpa [ccmLoop] using h
    exact hacc
  | cons a as ih =>
    intro idx acc m h hacc
    by_cases ha : a < 0
    · rw [ccmLoop, if_pos ha] at h
      refine ih _ _ _ h ?_
      intro e he
      rcases List.mem_append.mp he with h0 | h0
      · exact hacc e h0
      · obtain rfl : e = (a, grayColor) := by simpa using h0
        exact fun _ => rfl
    · rw [ccmLoop, if_neg ha] at h
      by_cases hz : (nc : ℤ) - 1 = 0
      · rw [if_pos hz] at h; exact absurd h (by simp)
      · rw [if_neg hz] at h
        refine ih _ _ _ h ?_
        intro e he
        rcases List.mem_append.mp he with h0 | h0
        · exact hacc e h0
        · obtain rfl : e = (a, pal (idx / ((nc : ℚ) - 1))) := by simpa using h0
          exact fun hlt => absurd hlt (by simpa using ha)

/-- C7 counterexample: on `cluster_ids = [-1, 0]` — noise plus exactly one
non-negative cluster id — `get_cluster_color_map` does not return a mapping
at all: the palette index division `idx / (num_colors - 1)` divides by the
integer zero (`ZeroDivisionError` in Python). -/
theorem get_cluster_color_map_single_cluster_cex :
    get_cluster_color_map palette0 [-1, 0] =
      Except.error PyErr.zeroDivisionError ∧
    ∀ m, get_cluster_color_map palette0 [-1, 0] ≠ Except.ok m := by
  constructor
  · rfl
  · intro m h
    rw [show get_cluster_color_map palette0 [-1, 0] =
      Except.error PyErr.zeroDivisionError from rfl] at h
    exact absurd h (by simp)

/-- C7 amended: whenever `-1` occurs among the cluster ids and the number of
distinct non-negative ids is not exactly one (zero, or two or more),
`get_cluster_color_map` returns a mapping that assigns `-1` exactly the
color `(0.75, 0.75, 0.75, 1.0)`; with exactly one distinct non-negative id
the call fails with a division-by-zero error instead. -/
theorem get_cluster_color_map_noise_gray (palette : ℕ → ℚ → Color)
    (cluster_ids : List ℤ) (hmem : (-1 : ℤ) ∈ cluster_ids)
    (hnc : numColors cluster_ids ≠ 1) :
    ∃ m, get_cluster_color_map palette cluster_ids = Except.ok m ∧
      ((-1 : ℤ), grayColor) ∈ m ∧
      ∀ c : Color, ((-1 : ℤ), c) ∈ m → c = grayColor := by
  have hcond : ∀ x ∈ sortedUnique cluster_ids, 0 ≤ x →
      ((numColors cluster_ids : ℤ) - 1 ≠ 0) := by
    intro x hx h0
    rcases Nat.eq_zero_or_pos (numColors cluster_ids) with h | h
    · exact absurd h0 (not_le.mpr
        (all_neg_of_numColors_zero h x ((mem_sortedUnique x _).mp hx)))
    · omega
  obtain ⟨m, hm⟩ := ccmLoop_ok (palette (numColors cluster_ids))
    (numColors cluster_ids) (sortedUnique cluster_ids) 0 [] hcond
  refine ⟨m, ?_, ?_, ?_⟩
  · simpa [get_cluster_color_map] using hm
  · exact ccmLoop_neg_mem_gray _ _ _ _ _ _ hm (-1)
      ((mem_sortedUnique _ _).mpr hmem) (by norm_num)
  · intro c hc
    exact ccmLoop_neg_only_gray _ _ _ _ _ _ hm (by simp) ((-1 : ℤ), c) hc
      (by norm_num)

/-- C7 amended, witness: with ids `[-1, 0, 5]` (two distinct non-negative
ids) the hypotheses hold and `-1` is bound exactly to the gray color. -/
theorem get_cluster_color_map_noise_gray_witness :
    ((-1 : ℤ) ∈ [-1, 0, 5] ∧ numColors [-1, 0, 5] ≠ 1) ∧
    (∃ m, get_cluster_color_map palette0 [-1, 0, 5] = Except.ok m ∧
      ((-1 : ℤ), grayColor) ∈ m ∧
      ∀ c : Color, ((-1 : ℤ), c) ∈ m → c = grayColor) :=
  ⟨⟨by decide, by decide⟩,
    get_cluster_color_map_noise_gray palette0 [-1, 0, 5] (by decide) (by decide)⟩

/-! ## C9 -/

theorem find?_replace_map (f : String) (v : List PVal) :
    ∀ l : List (String × List PVal),
      (l.map (fun p => if p.1 = f then (p.1, v) else p)).find?
          (fun p => p.1 = f) =
        (l.find? (fun p => p.1 = f)).map (fun p => (p.1, v)) := by
  intro l
  induction l with
  | nil => rfl
  | cons p ps ih =>
    by_cases hp : p.1 = f
    · rw [List.map_cons, if_pos hp,
        List.find?_cons_of_pos _ (by simpa using hp),
        List.find?_cons_of_pos _ (by simpa using hp)]
      rfl
    · rw [List.map_cons, if_neg hp,
        List.find?_cons_of_neg _ (by simpa using hp),
        List.find?_cons_of_neg _ (by simpa using hp), ih]

theorem find?_replace_ne (f n : String) (v : List PVal) (hne : n ≠ f) :
    ∀ l : List (String × List PVal),
      (l.map (fun p => if p.1 = f then (p.1, v) else p)).find?
          (fun p => p.1 = n) =
        l.find? (fun p => p.1 = n) := by
  intro l
  induction l with
  | nil => rfl
  | cons p ps ih =>
    by_cases hp : p.1 = f
    · have hpn : ¬(p.1 = n) := fun h => hne (h.symm.trans hp)
      rw [List.map_cons, if_pos hp,
        List.find?_cons_of_neg _ (by simpa using hpn),
        List.find?_cons_of_neg _ (by simpa using hpn), ih]
    · by_cases hn : p.1 = n
      · rw [List.map_cons, if_neg hp,
          List.find?_cons_of_pos _ (by simpa using hn),
          List.find?_cons_of_pos _ (by simpa using hn)]
      · rw [List.map_cons, if_neg hp,
          List.find?_cons_of_neg _ (by simpa using hn),
          List.find?_cons_of_neg _ (by simpa using hn), ih]

/-- After `setCol`, reading the written column yields the new values. -/
theorem DF.getCol_setCol_self (d : DF) (f : String) (v : List PVal) :
    (d.setCol f v).getCol f = some v := by
  rw [DF.setCol]
  by_cases hany : d.cols.any (fun p => decide (p.1 = f)) = true
  · rw [if_pos hany, DF.getCol]
    simp only [find?_replace_map]
    cases hq : List.find? (fun p => decide (p.1 = f)) d.cols with
    | none =>
      rw [List.find?_eq_none] at hq
      obtain ⟨x, hx, hpx⟩ := List.any_eq_true.mp hany
      exact absurd hpx (by simpa using hq x hx)
    | some q =>
      have hqf : q.1 = f := by simpa using List.find?_some hq
      simp [hq, hqf]
  · rw [if_neg hany, DF.getCol]
    simp only
    have hnone : List.find? (fun p => decide (p.1 = f)) d.cols = none := by
      rw [List.find?_eq_none]
      intro x hx
      by_contra hcon
      exact hany (List.any_eq_true.mpr ⟨x, hx, by simpa using hcon⟩)
    rw [List.find?_append, hnone]
    simp

/-- `setCol` leaves every other column untouched. -/
theorem DF.getCol_setCol_ne (d : DF) (f n : String) (v : List PVal)
    (hne : n ≠ f) : (d.setCol f v).getCol n = d.getCol n := by
  rw [DF.setCol]
  by_cases hany : d.cols.any (fun p => decide (p.1 = f)) = true
  · rw [if_pos hany, DF.getCol, DF.getCol]
    simp only [find?_replace_ne f n v hne]
  · rw [if_neg hany, DF.getCol, DF.getCol]
    simp only
    rw [List.find?_append]
    have hfn : ¬(f = n) := fun h => hne h.symm
    have hlast : List.find? (fun p => decide (p.1 = n)) [(f, v)] = none := by
      rw [List.find?_cons_of_neg _ (by simpa using hfn)]
      rfl
    rw [hlast]
    simp

/-- C9 counterexample: on a table that already carries a `bhc_cluster_id`
column, `prune_cluster` (not inplace) overwrites that pre-existing column, so
the returned copy does not differ from the input only by an added column. -/
theorem prune_cluster_overwrites_existing_cex :
    ∃ res, prune_cluster [1] ["a"] df9 "bhc_cluster_id" false =
        Except.ok (res, df9) ∧
      "bhc_cluster_id" ∈ df9.cols.map Prod.fst ∧
      res.getCol "bhc_cluster_id" ≠ df9.getCol "bhc_cluster_id" := by
  refine ⟨⟨[("cell_id", [.str "a"]), ("bhc_cluster_id", [.int 1])]⟩, rfl,
    by decide, by decide⟩

/-- C9 amended: with `inplace = False`, `prune_cluster` leaves the caller's
table unchanged and returns a copy that differs from it only in the
`cluster_field_name` column (added when absent, overwritten when present),
whose value at each row is the cluster label obtained by mapping that row's
cell id through the assignment (a cell id outside the assignment maps to the
missing value). -/
theorem prune_cluster_not_inplace (fcl : List ℤ) (ids : List String) (d : DF)
    (field : String) (cellvals : List PVal)
    (hlen : fcl.length ≤ ids.length)
    (hcell : d.getCol "cell_id" = some cellvals) :
    ∃ res, prune_cluster fcl ids d field false = .ok (res, d) ∧
      res.getCol field = some (cellvals.map (mapLabel (ids.zip fcl))) ∧
      ∀ name, name ≠ field → res.getCol name = d.getCol name := by
  refine ⟨d.setCol field (cellvals.map (mapLabel (ids.zip fcl))), ?_,
    DF.getCol_setCol_self d field _, fun n hn => DF.getCol_setCol_ne d field n _ hn⟩
  unfold prune_cluster
  rw [if_neg (by omega), hcell]
  rfl

/-- C9 amended, witness: a two-row table without the cluster column; the new
column is appended with the mapped labels and the other column is kept. -/
theorem prune_cluster_not_inplace_witness :
    ([(1 : ℤ), 2].length ≤ ["a", "b"].length ∧
      df9b.getCol "cell_id" = some [.str "a", .str "b"]) ∧
    ∃ res, prune_cluster [1, 2] ["a", "b"] df9b "bhc_cluster_id" false =
        .ok (res, df9b) ∧
      res.getCol "bhc_cluster_id" =
        some ([PVal.str "a", PVal.str "b"].map
          (mapLabel (["a", "b"].zip [1, 2]))) ∧
      ∀ name, name ≠ "bhc_cluster_id" →
        res.getCol name = df9b.getCol name :=
  ⟨⟨by decide, rfl⟩,
    prune_cluster_not_inplace [1, 2] ["a", "b"] df9b "bhc_cluster_id"
      [PVal.str "a", PVal.str "b"] (by decide) rfl⟩

/-! ## C10 -/

theorem eqCount_le {T : Type} [DecidableEq T] (t : List (T × T)) :
    eqCount t ≤ t.length :=
  List.length_filter_le _ _

theorem eqCount_cons {T : Type} [DecidableEq T] (r : T × T) (t : List (T × T)) :
    eqCount (r :: t) = (if r.1 = r.2 then 1 else 0) + eqCount t := by
  by_cases h : r.1 = r.2 <;> simp [eqCount, List.filter_cons, h, Nat.add_comm]

/-- Closed form of `get_prop_correct` on a non-empty table: the larger of the
agreeing fraction and its complement. -/
theorem get_prop_correct_eq {T : Type} [DecidableEq T] (t : List (T × T))
    (hne : t ≠ []) :
    get_prop_correct t =
      .ok (max ((eqCount t : ℚ) / t.length) (1 - (eqCount t : ℚ) / t.length)) := by
  have hn : 0 < t.length := List.length_pos.mpr hne
  have hct : eqCount t ≤ t.length := eqCount_le t
  have hn0 : (t.length : ℚ) ≠ 0 := by positivity
  have hsub : ((t.length - eqCount t : ℕ) : ℚ) / t.length =
      1 - (eqCount t : ℚ) / t.length := by
    rw [Nat.cast_sub hct, sub_div, div_self hn0]
  unfold get_prop_correct
  dsimp only
  by_cases h1 : 0 < eqCount t
  · by_cases h2 : 0 < t.length - eqCount t
    · rw [if_pos h1, if_pos h2]
      show Except.ok (max ((eqCount t : ℚ) / t.length)
        (((t.length - eqCount t : ℕ) : ℚ) / t.length)) = _
      rw [hsub]
    · have heq : eqCount t = t.length := by omega
      rw [if_pos h1, if_neg h2]
      show Except.ok ((eqCount t : ℚ) / t.length) = _
      rw [heq, div_self hn0]
      norm_num
  · have heq : eqCount t = 0 := by omega
    have h2 : 0 < t.length - eqCount t := by omega
    rw [if_neg h1, if_pos h2]
    show Except.ok (((t.length - eqCount t : ℕ) : ℚ) / t.length) = _
    rw [hsub, heq]
    norm_num

theorem eqCount_swap {T : Type} [DecidableEq T] (a b : T) (hab : a ≠ b) :
    ∀ t : List (T × T),
      (∀ r ∈ t, (r.1 = a ∨ r.1 = b) ∧ (r.2 = a ∨ r.2 = b)) →
      eqCount (t.map (fun r =>
          (r.1, if r.2 = a then b else if r.2 = b then a else r.2))) =
        t.length - eqCount t := by
  intro t
  induction t with
  | nil => intro _; rfl
  | cons r t ih =>
    intro hdom
    obtain ⟨x, y⟩ := r
    have hr := hdom (x, y) (by simp)
    have hrec := ih (fun q hq => hdom q (by simp [hq]))
    have hct : eqCount t ≤ t.length := eqCount_le t
    obtain ⟨h1, h2⟩ := hr
    rw [List.map_cons, eqCount_cons, eqCount_cons, hrec, List.length_cons]
    dsimp only at h1 h2 ⊢
    rcases h1 with h1 | h1 <;> rcases h2 with h2 | h2 <;> rw [h1, h2] <;>
      simp [hab, Ne.symm hab] <;> omega

/-- C10: on every non-empty comparison table, `get_prop_correct` returns
`max(p, 1 - p)` where `p` is the fraction of rows whose expected label equals
the observed label; hence the returned accuracy is at least `1/2`; and over
binary label alphabets it is unchanged when the two observed labels are
swapped on every row. -/
theorem get_prop_correct_spec {T : Type} [DecidableEq T] (t : List (T × T))
    (hne : t ≠ []) :
    get_prop_correct t =
      .ok (max ((eqCount t : ℚ) / t.length)
        (1 - (eqCount t : ℚ) / t.length)) ∧
    (∀ q, get_prop_correct t = .ok q → 1 / 2 ≤ q) ∧
    (∀ a b : T, a ≠ b →
      (∀ r ∈ t, (r.1 = a ∨ r.1 = b) ∧ (r.2 = a ∨ r.2 = b)) →
      get_prop_correct (t.map (fun r =>
          (r.1, if r.2 = a then b else if r.2 = b then a else r.2))) =
        get_prop_correct t) := by
  have hmain := get_prop_correct_eq t hne
  refine ⟨hmain, ?_, ?_⟩
  · intro q hq
    rw [hmain] at hq
    obtain rfl : _ = q := (Except.ok.injEq _ _).mp hq.symm |>.symm
    by_cases h : 1 / 2 ≤ (eqCount t : ℚ) / t.length
    · exact le_max_of_le_left h
    · exact le_max_of_le_right (by push_neg at h; linarith)
  · intro a b hab hdom
    have hne2 : t.map (fun r =>
        (r.1, if r.2 = a then b else if r.2 = b then a else r.2)) ≠ [] := by
      simpa using hne
    rw [get_prop_correct_eq _ hne2, hmain]
    have hcnt := eqCount_swap a b hab t hdom
    have hct : eqCount t ≤ t.length := eqCount_le t
    have hn : 0 < t.length := List.length_pos.mpr hne
    have hn0 : (t.length : ℚ) ≠ 0 := by positivity
    rw [hcnt, List.length_map]
    have hsub : ((t.length - eqCount t : ℕ) : ℚ) / t.length =
        1 - (eqCount t : ℚ) / t.length := by
      rw [Nat.cast_sub hct, sub_div, div_self hn0]
    rw [hsub]
    rw [sub_sub_cancel, max_comm]

/-- C10, witness: on the three-row Boolean table with two agreeing rows the
accuracy is `max (2/3) (1/3)`, it is at least `1/2`, and swapping the
observed labels leaves it unchanged. -/
theorem get_prop_correct_spec_witness :
    ([((true : Bool), (true : Bool)), (true, true), (true, false)] ≠ []) ∧
    (get_prop_correct [((true : Bool), (true : Bool)), (true, true), (true, false)] =
      .ok (max ((2 : ℚ) / 3) (1 - (2 : ℚ) / 3)) ∧
    (∀ q, get_prop_correct [((true : Bool), (true : Bool)), (true, true), (true, false)] =
        .ok q → 1 / 2 ≤ q)) := by
  have h := get_prop_correct_spec
    [((true : Bool), (true : Bool)), (true, true), (true, false)] (by decide)
  refine ⟨by decide, ?_, h.2.1⟩
  have := h.1
  norm_num [eqCount] at this ⊢
  exact this

/-! ## C2 -/

/-- C2: for every node on which `update_pi_d(alpha)` succeeds (with
`math.gamma` interpreted as the real Gamma function): a leaf gets `pi = 1`
and `d = alpha`; a node with both children present and children's `d` values
`d_L, d_R` gets `d = alpha·Γ(n_k) + d_L·d_R` and
`pi = alpha·Γ(n_k) / d`, where `n_k` is the combined member count of the two
children. -/
theorem update_pi_d_spec (alpha : ℝ) (t t' : TNode ℝ)
    (h : update_pi_d (fun n => Real.Gamma n) alpha t = Except.ok t') :
    (t.is_leaf = true → t'.pi = some 1 ∧ t'.d = some alpha) ∧
    (∀ l r dl dr, t.left_child = some l → t.right_child = some r →
      l.d = some dl → r.d = some dr →
      t'.d = some (alpha *
          Real.Gamma ((l.sample_inds.length + r.sample_inds.length : ℕ) : ℝ) +
        dl * dr) ∧
      t'.pi = some ((alpha *
          Real.Gamma ((l.sample_inds.length + r.sample_inds.length : ℕ) : ℝ)) /
        (alpha *
          Real.Gamma ((l.sample_inds.length + r.sample_inds.length : ℕ) : ℝ) +
          dl * dr))) := by
  constructor
  · intro hleaf
    rw [update_pi_d, if_pos hleaf] at h
    obtain rfl := (Except.ok.injEq _ _).mp h
    exact ⟨by simp, by simp⟩
  · intro l r dl dr hl hr hdl hdr
    have hleaf := TNode.is_leaf_false_of_left hl
    rw [update_pi_d, if_neg (by simp [hleaf]), hl, hr] at h
    dsimp only at h
    rw [hdl, hdr] at h
    dsimp only at h
    by_cases hnk : l.sample_inds.length + r.sample_inds.length = 0
    · rw [if_pos hnk] at h
      exact absurd h (by simp)
    · rw [if_neg hnk] at h
      by_cases hdv : alpha *
          Real.Gamma ((l.sample_inds.length + r.sample_inds.length : ℕ) : ℝ) +
          dl * dr = 0
      · rw [if_pos hdv] at h
        exact absurd h (by simp)
      · rw [if_neg hdv] at h
        obtain rfl := (Except.ok.injEq _ _).mp h
        exact ⟨by simp, by simp⟩

/-- Evaluation of `update_pi_d` on the concrete candidate merge node. -/
theorem update_pi_d_tInternal :
    update_pi_d (fun n => Real.Gamma n) 1 tInternalR =
      Except.ok tInternalAfterPiD := by
  have hG : Real.Gamma 2 = 1 := by
    rw [show (2 : ℝ) = (1 : ℕ) + 1 by norm_num, Real.Gamma_nat_eq_factorial]
    norm_num
  have hdv : ¬(1 * Real.Gamma ((1 + 1 : ℕ) : ℝ) + 1 * 1 = 0) := by
    have : ((1 + 1 : ℕ) : ℝ) = 2 := by norm_num
    rw [this, hG]
    norm_num
  show (if (1 * Real.Gamma ((1 + 1 : ℕ) : ℝ) + 1 * 1 : ℝ) = 0 then
      (Except.error PyErr.zeroDivisionError : Except PyErr (TNode ℝ))
    else Except.ok (tInternalR.withPiD
      (1 * Real.Gamma ((1 + 1 : ℕ) : ℝ) /
        (1 * Real.Gamma ((1 + 1 : ℕ) : ℝ) + 1 * 1))
      (1 * Real.Gamma ((1 + 1 : ℕ) : ℝ) + 1 * 1))) =
    Except.ok tInternalAfterPiD
  rw [if_neg hdv]
  rfl

/-- C2, witness: on the merge of the two unit leaves (`n_k = 2`,
`d_L = d_R = 1`, `alpha = 1`) the update succeeds and writes exactly
`d = 1·Γ(2) + 1·1` and `pi = 1·Γ(2) / (1·Γ(2) + 1·1)`. -/
theorem update_pi_d_spec_witness :
    update_pi_d (fun n => Real.Gamma n) 1 tInternalR =
        Except.ok tInternalAfterPiD ∧
    tInternalAfterPiD.d =
      some (1 * Real.Gamma ((1 + 1 : ℕ) : ℝ) + 1 * 1) ∧
    tInternalAfterPiD.pi =
      some (1 * Real.Gamma ((1 + 1 : ℕ) : ℝ) /
        (1 * Real.Gamma ((1 + 1 : ℕ) : ℝ) + 1 * 1)) := by
  have h := update_pi_d_tInternal
  have hs := (update_pi_d_spec 1 tInternalR tInternalAfterPiD h).2
    leafA leafB 1 1 rfl rfl rfl rfl
  exact ⟨h, hs.1, hs.2⟩

/-! ## C3 -/

/-- `update_ll` always writes some `ll` value and changes nothing else. -/
theorem update_ll_shape {R : Type} [LinearOrderedField R]
    {mll : List (List R) → List (List R) → TransModel R → R}
    {meas vars : List (List R)} {tm : TransModel R} {t1 t2 : TNode R}
    (h : update_ll mll meas vars tm t1 = .ok t2) : ∃ v, t2 = t1.withLl v := by
  rw [update_ll] at h
  split at h
  · exact ⟨_, ((Except.ok.injEq _ _).mp h).symm⟩
  · exact ⟨_, ((Except.ok.injEq _ _).mp h).symm⟩

/-- A successful `update_pi_d` writes `pi` and `d` and changes nothing
else. -/
theorem update_pi_d_shape {R : Type} [LinearOrderedField R]
    {gamma : ℕ → R} {alpha : R} {t t1 : TNode R}
    (h : update_pi_d gamma alpha t = .ok t1) : ∃ p v, t1 = t.withPiD p v := by
  rw [update_pi_d] at h
  dsimp only at h
  repeat' split at h
  all_goals first
    | exact ⟨_, _, ((Except.ok.injEq _ _).mp h).symm⟩
    | exact absurd h (by simp)

/-- The defining inequality behind `log_r ≤ 0`: a term never exceeds the
log-sum-exp it is a summand of. -/
theorem sub_logsumexp2_nonpos (a b : ℝ) :
    a - logsumexp2 Real.log Real.exp a b ≤ 0 := by
  have h2 : a ≤ Real.log (Real.exp a + Real.exp b) := by
    rw [Real.le_log_iff_exp_le (by positivity)]
    exact le_add_of_nonneg_right (Real.exp_pos b).le
  unfold logsumexp2
  linarith

/-- C3: on every node with more than one sample index on which the
`update_vars` chain succeeds (children's statistics current, as enforced by
success), the resulting `log_r` equals `(ln pi + ll) − tree_ll` exactly for
the resulting `pi`, `ll` and `tree_ll`, and that value is at most 0 (in the
exact real model, where `log_r` is a real number, this is the claim's
interval `(-∞, 0]`). -/
theorem update_vars_log_r_spec (gamma : ℕ → ℝ) (alpha : ℝ)
    (mll : List (List ℝ) → List (List ℝ) → TransModel ℝ → ℝ)
    (meas vars : List (List ℝ)) (tm : TransModel ℝ) (t t' : TNode ℝ)
    (hlen : t.sample_inds.length ≠ 1)
    (h : update_vars gamma alpha mll Real.log Real.exp meas vars tm t =
      Except.ok t') :
    ∃ p li tl, t'.pi = some p ∧ t'.ll = some li ∧ t'.tree_ll = some tl ∧
      t'.log_r = some (Real.log p + li - tl) ∧ Real.log p + li - tl ≤ 0 := by
  unfold update_vars at h
  obtain ⟨t1, h1, h⟩ := except_bind_eq_ok h
  obtain ⟨t2, h2, h⟩ := except_bind_eq_ok h
  obtain ⟨t3, h3, h4⟩ := except_bind_eq_ok h
  obtain ⟨P, D, rfl⟩ := update_pi_d_shape h1
  obtain ⟨L, rfl⟩ := update_ll_shape h2
  rw [update_tree_ll] at h3
  rw [if_neg (by simpa using hlen)] at h3
  simp only [TNode.pi_withLl, TNode.pi_withPiD, TNode.ll_withLl,
    TNode.left_withLl, TNode.left_withPiD, TNode.right_withLl,
    TNode.right_withPiD] at h3
  cases hL : t.left_child with
  | none => rw [hL] at h3; exact absurd h3 (by simp)
  | some l =>
  cases hR : t.right_child with
  | none => rw [hL, hR] at h3; exact absurd h3 (by simp)
  | some r =>
  rw [hL, hR] at h3
  dsimp only at h3
  cases hLtl : l.tree_ll with
  | none => rw [hLtl] at h3; exact absurd h3 (by simp)
  | some ltl =>
  cases hRtl : r.tree_ll with
  | none => rw [hLtl, hRtl] at h3; exact absurd h3 (by simp)
  | some rtl =>
  rw [hLtl, hRtl] at h3
  dsimp only at h3
  obtain rfl := (Except.ok.injEq _ _).mp h3
  rw [update_log_r] at h4
  simp only [TNode.pi_withTreeLl, TNode.pi_withLl, TNode.pi_withPiD,
    TNode.ll_withTreeLl, TNode.ll_withLl, TNode.left_withTreeLl,
    TNode.left_withLl, TNode.left_withPiD, TNode.right_withTreeLl,
    TNode.right_withLl, TNode.right_withPiD] at h4
  rw [hL, hR] at h4
  dsimp only at h4
  rw [hLtl, hRtl] at h4
  dsimp only at h4
  obtain rfl := (Except.ok.injEq _ _).mp h4
  refine ⟨P, L, logsumexp2 Real.log Real.exp (Real.log P + L)
    (Real.log (1 - P) + ltl + rtl), by simp, by simp, by simp, by simp, ?_⟩
  exact sub_logsumexp2_nonpos _ _

/-- Evaluation of the full `update_vars` chain on the concrete candidate
merge node (constant-zero likelihood model). -/
theorem update_vars_tInternal :
    update_vars (fun n => Real.Gamma n) 1 (fun _ _ _ => 0) Real.log Real.exp
        [] [] tmR tInternalR = Except.ok tInternalAfterVars := by
  unfold update_vars
  rw [update_pi_d_tInternal]
  rfl

/-- C3, witness: the concrete merge node has two sample indices and the
chain succeeds, so its `log_r` is `(ln pi + ll) − tree_ll ≤ 0`. -/
theorem update_vars_log_r_spec_witness :
    tInternalR.sample_inds.length ≠ 1 ∧
    ∃ t', update_vars (fun n => Real.Gamma n) 1 (fun _ _ _ => 0) Real.log
        Real.exp [] [] tmR tInternalR = Except.ok t' ∧
      ∃ p li tl, t'.pi = some p ∧ t'.ll = some li ∧ t'.tree_ll = some tl ∧
        t'.log_r = some (Real.log p + li - tl) ∧ Real.log p + li - tl ≤ 0 := by
  have hlen : tInternalR.sample_inds.length ≠ 1 := by
    rw [show tInternalR.sample_inds = [0, 1] from rfl]
    simp
  exact ⟨hlen, tInternalAfterVars, update_vars_tInternal,
    update_vars_log_r_spec (fun n => Real.Gamma n) 1 (fun _ _ _ => 0) [] []
      tmR tInternalR tInternalAfterVars hlen update_vars_tInternal⟩

/-! ## C1 -/

/-- The crash at the heart of C1: `update_vars` on a fresh leaf
(`TNode([i], None, None, i, 0, alpha)`) always fails, because
`update_log_r` has no leaf guard and dereferences the absent
`left_child`. -/
theorem update_vars_leaf_attr_error {R : Type} [LinearOrderedField R]
    (gamma : ℕ → R) (alpha : R)
    (mll : List (List R) → List (List R) → TransModel R → R)
    (rlog rexp : R → R) (meas vars : List (List R)) (tm : TransModel R)
    (i : ℕ) :
    update_vars gamma alpha mll rlog rexp meas vars tm
        (TNode.mk [i] none none (i : ℤ) (some 0) (some alpha) none none none) =
      Except.error PyErr.attributeError := rfl

/-- The initial `mapM update_vars` over the per-cell leaves fails on the very
first leaf. -/
theorem leaves_mapM_attr_error {R : Type} [LinearOrderedField R]
    (gamma : ℕ → R) (alpha : R)
    (mll : List (List R) → List (List R) → TransModel R → R)
    (rlog rexp : R → R) (meas vars : List (List R)) (tm : TransModel R)
    (n : ℕ) :
    ((List.range (n + 1)).map (fun i =>
        TNode.mk [i] none none (i : ℤ) (some 0) (some alpha)
          none none none)).mapM
        (update_vars gamma alpha mll rlog rexp meas vars tm) =
      Except.error PyErr.attributeError := by
  rw [List.range_succ_eq_map, List.map_cons, List.mapM_cons]
  rw [show update_vars gamma alpha mll rlog rexp meas vars tm
      (TNode.mk [0] none none ((0 : ℕ) : ℤ) (some 0) (some alpha)
        none none none) = Except.error PyErr.attributeError from
    update_vars_leaf_attr_error gamma alpha mll rlog rexp meas vars tm 0]
  rfl

/-- C1 (code bug): for every non-empty copy-number table — whatever the
hyperparameters and however the external statistical primitives behave —
`bayesian_cluster` raises `AttributeError` instead of returning a linkage:
step 4 of the algorithm runs `update_vars` on each initial leaf, and
`update_log_r` dereferences the leaf's absent `left_child`. -/
theorem bayesian_cluster_crashes {R : Type} [LinearOrderedField R]
    (mll : List (List R) → List (List R) → TransModel R → R)
    (rlog rexp : R → R) (gamma : ℕ → R) (rowdist : List R → List R → R)
    (getVar : List (CnRow R) → List (List (List R)) → ℤ → List (List R))
    (cn_data : List (CnRow R)) (n_states : ℤ) (alpha prob_cn_change : R)
    (value_ids : List (CnRow R → R)) (clustering_id : CnRow R → R)
    (hne : cn_data ≠ []) :
    bayesian_cluster mll rlog rexp gamma rowdist getVar cn_data n_states
      alpha prob_cn_change value_ids clustering_id =
      Except.error PyErr.attributeError := by
  obtain ⟨c, cs, hcs⟩ := List.exists_cons_of_ne_nil
    (fun h => hne (by simpa using (List.dedup_eq_nil _).mp h))
    (l := (cn_data.map (fun r => r.cell_id)).dedup)
  unfold bayesian_cluster cn_data_to_mat_data_ids
  dsimp only
  rw [hcs]
  simp only [List.length_map, List.length_cons]
  rw [leaves_mapM_attr_error]
  rfl

/-- C1, witness: the two-cell table indeed makes `bayesian_cluster` fail
with `AttributeError` (rational instantiation of every numeric
parameter). -/
theorem bayesian_cluster_crashes_witness :
    cndC1 ≠ [] ∧
    bayesian_cluster (R := ℚ) (fun _ _ _ => 0) id id gammaQ (fun _ _ => 0)
        (fun _ _ _ => []) cndC1 7 1 (8 / 10) [fun r => r.copy]
        (fun r => r.copy) =
      Except.error PyErr.attributeError :=
  ⟨by simp [cndC1],
    bayesian_cluster_crashes (R := ℚ) (fun _ _ _ => 0) id id gammaQ
      (fun _ _ => 0) (fun _ _ _ => []) cndC1 7 1 (8 / 10) [fun r => r.copy]
      (fun r => r.copy) (by simp [cndC1])⟩

/-! ## C6 -/

/-- The simulated long-format table is non-empty as soon as there is at
least one sample per cluster and one bin. -/
theorem simCnData_ne_nil {R : Type} [LinearOrderedField R]
    (cn_mat : List (List ℤ)) (chr_names : List String)
    (cell_ids : List String) (num_bin : ℕ) (noise : ℕ → R)
    (hmat : cn_mat ≠ []) (hbin : 1 ≤ num_bin) :
    simCnData cn_mat chr_names cell_ids num_bin noise ≠ [] := by
  have h0 : 0 < cn_mat.length := List.length_pos.mpr hmat
  apply List.ne_nil_of_mem
    (a := ({ chr := chr_names.getD (0 * chr_names.length / max num_bin 1) ""
             bin := 0
             cell_id := cell_ids.getD 0 ""
             state := (cn_mat.getD 0 []).getD 0 0
             start := 0
             end_ := 0 + 1
             cluster_id := (((cell_ids.getD 0 "").splitOn "_").getD 0 "")
             copy := ((cn_mat.getD 0 []).getD 0 0 : R) +
               |noise (0 * num_bin + 0)| } : CnRow R))
  unfold simCnData
  apply List.mem_flatMap.mpr
  exact ⟨0, List.mem_range.mpr h0,
    List.mem_map.mpr ⟨0, List.mem_range.mpr hbin, rfl⟩⟩

/-- C6 (code bug): with at least one cell per cluster and one bin (and no
accumulator row), `poisson_bicluster` does not return the five-value tuple:
its call to `bayesian_cluster` raises `AttributeError` (C1's crash), so the
error propagates out of `poisson_bicluster` — and even past that point the
code unpacks `bayesian_cluster`'s six return values into three names, a
`ValueError`. -/
theorem poisson_bicluster_crashes {R : Type} [LinearOrderedField R]
    (mll : List (List R) → List (List R) → TransModel R → R)
    (rlog rexp : R → R) (gamma : ℕ → R) (rowdist : List R → List R → R)
    (getVar : List (CnRow R) → List (List (List R)) → ℤ → List (List R))
    (samples_per_cluster num_bin : ℕ) (max_cn : ℤ) (alpha : R)
    (first1 jumps1 signs1 first2 jumps2 signs2 : ℕ → ℕ) (noise : ℕ → R)
    (hspc : 1 ≤ samples_per_cluster) (hbin : 1 ≤ num_bin) :
    poisson_bicluster mll rlog rexp gamma rowdist getVar
        samples_per_cluster num_bin max_cn alpha none
        first1 jumps1 signs1 first2 jumps2 signs2 noise =
      Except.error PyErr.attributeError := by
  have hmat : cn_mat_poisson samples_per_cluster num_bin max_cn
      first1 jumps1 signs1 ++ cn_mat_poisson samples_per_cluster num_bin
      max_cn first2 jumps2 signs2 ≠ [] := by
    have : 0 < samples_per_cluster := hspc
    simp [cn_mat_poisson, List.append_eq_nil, List.range_eq_nil]
    omega
  unfold poisson_bicluster
  dsimp only
  rw [bayesian_cluster_crashes _ _ _ _ _ _ _ _ _ _ _ _
    (simCnData_ne_nil _ _ _ _ _ hmat hbin)]
  rfl

/-- C6, witness: one cell per cluster and a single bin, everything rational;
the call fails with the `AttributeError` instead of returning the
five-value tuple. -/
theorem poisson_bicluster_crashes_witness :
    (1 ≤ 1 ∧ 1 ≤ 1) ∧
    poisson_bicluster (R := ℚ) (fun _ _ _ => 0) id id gammaQ (fun _ _ => 0)
        (fun _ _ _ => []) 1 1 7 1 none (fun _ => 1) (fun _ => 1) (fun _ => 1)
        (fun _ => 2) (fun _ => 1) (fun _ => 0) (fun _ => 0) =
      Except.error PyErr.attributeError :=
  ⟨⟨le_refl 1, le_refl 1⟩,
    poisson_bicluster_crashes (R := ℚ) (fun _ _ _ => 0) id id gammaQ
      (fun _ _ => 0) (fun _ _ _ => []) 1 1 7 1 (fun _ => 1) (fun _ => 1)
      (fun _ => 1) (fun _ => 2) (fun _ => 1) (fun _ => 0) (fun _ => 0)
      (le_refl 1) (le_refl 1)⟩

end Scgenome
